import Mathlib

/-!
Verification of the exploration-transfer actor-learner training loop.

The development shallowly embeds the reward composition, discount
computation, checkpoint handling, startup/shutdown control flow, the
buffer-pool ownership protocol, the learner-loop counter, and the
learning-rate schedule of the repository (src/algos/e3b.py,
src/algos/RNDxE3B.py, src/init_models_and_states.py, main.py).
Machine floats are modelled as exact rationals.
-/

/-- Mirrors torch.clamp(x, lo, hi): values below lo become lo, values above
hi become hi, values in between pass through. -/
def torchClamp (lo hi x : ℚ) : ℚ := if x < lo then lo else if hi < x then hi else x

/-- The clamp equals min (max x lo) hi whenever lo is at most hi. -/
theorem torchClamp_eq_min_max (lo hi x : ℚ) (h : lo ≤ hi) :
    torchClamp lo hi x = min (max x lo) hi := by
  unfold torchClamp
  rcases lt_or_le x lo with h1 | h1
  · rw [if_pos h1, max_eq_right h1.le, min_eq_left h]
  · rw [if_neg (not_lt.mpr h1), max_eq_left h1]
    rcases lt_or_le hi x with h2 | h2
    · rw [if_pos h2, min_eq_right h2.le]
    · rw [if_neg (not_lt.mpr h2), min_eq_left h2]

/-- The flag fields of the argument namespace that the learn-step reward
pipeline reads (intrinsic_reward_coef, no_reward, discounting). -/
structure LearnFlags where
  intrinsic_reward_coef : ℚ
  no_reward : Bool
  discounting : ℚ
deriving DecidableEq

/-- Mirrors src/algos/e3b.py, learn, lines 59-90: intrinsic_rewards is the
bonus_reward batch scaled by intrinsic_reward_coef; total_rewards is the
intrinsic rewards alone when no_reward is set, the elementwise sum of
extrinsic and intrinsic rewards when the coefficient is positive, and the
extrinsic rewards alone otherwise. -/
def e3bTotalRewards (fl : LearnFlags) (rewards bonus : List ℚ) : List ℚ :=
  let intrinsic_rewards := bonus.map (fun b => b * fl.intrinsic_reward_coef)
  if fl.no_reward then intrinsic_rewards
  else if 0 < fl.intrinsic_reward_coef then
    List.zipWith (fun r i => r + i) rewards intrinsic_rewards
  else rewards

/-- Mirrors src/algos/e3b.py, learn, line 91: clipped_rewards =
torch.clamp(total_rewards, -1, 1). -/
def e3bClippedRewards (fl : LearnFlags) (rewards bonus : List ℚ) : List ℚ :=
  (e3bTotalRewards fl rewards bonus).map (torchClamp (-1) 1)

/-- Mirrors src/algos/e3b.py, learn, line 93: discounts =
(1 - real_done.float()).abs() * discounting, one entry per timestep. -/
def e3bDiscounts (fl : LearnFlags) (real_done : List Bool) : List ℚ :=
  real_done.map (fun d => |1 - (if d then (1 : ℚ) else 0)| * fl.discounting)

/-- Mirrors src/algos/RNDxE3B.py, learn, lines 53-61, 73-74, 99-106, as one
pure function.  In source order: intrinsic_rewards is bound to the episodic
bonus (lines 53-54); intrinsic_rewards_rnd is the RND distillation error,
multiplied in place by the episodic bonus (lines 58-61); intrinsic_rewards
is then scaled in place by intrinsic_reward_coef (lines 73-74); and
total_rewards (lines 99-106) combines the extrinsic rewards with
intrinsic_rewards only — the product intrinsic_rewards_rnd is never read
again.  Returns the clipped rewards fed to vtrace.from_logits together with
the computed-but-unused product. -/
def RNDxE3B_learnRewards (fl : LearnFlags) (rewards episodic rndErr : List ℚ) :
    List ℚ × List ℚ :=
  let intrinsic_rewards := episodic
  let intrinsic_rewards_rnd := List.zipWith (fun x b => x * b) rndErr intrinsic_rewards
  let intrinsic_rewards_scaled := intrinsic_rewards.map (fun b => b * fl.intrinsic_reward_coef)
  let total_rewards :=
    if fl.no_reward then intrinsic_rewards_scaled
    else if 0 < fl.intrinsic_reward_coef then
      List.zipWith (fun r i => r + i) rewards intrinsic_rewards_scaled
    else rewards
  (total_rewards.map (torchClamp (-1) 1), intrinsic_rewards_rnd)

/-- Mirrors numpy.maximum on two scalars. -/
def npMaximum (a b : ℚ) : ℚ := if a ≤ b then b else a

/-- Mirrors the python builtin min on two scalars. -/
def pyMin (a b : ℚ) : ℚ := if a ≤ b then a else b

theorem npMaximum_eq_max (a b : ℚ) : npMaximum a b = max a b := by
  unfold npMaximum
  rcases le_or_lt a b with h | h
  · rw [if_pos h, max_eq_right h]
  · rw [if_neg (not_le.mpr h), max_eq_left h.le]

theorem pyMin_eq_min (a b : ℚ) : pyMin a b = min a b := by
  unfold pyMin
  rcases le_or_lt a b with h | h
  · rw [if_pos h, min_eq_left h]
  · rw [if_neg (not_le.mpr h), min_eq_right h.le]

/-- Mirrors src/init_models_and_states.py, lines 142-144: the LambdaLR
multiplier 1 - min(epoch * unroll_length * batch_size, x) / x with
x = np.maximum(total_frames, 1e8). -/
def lr_lambda (total_frames unroll_length batch_size : ℕ) (epoch : ℕ) : ℚ :=
  let x : ℚ := npMaximum (total_frames : ℚ) (10 ^ 8)
  1 - pyMin ((epoch * unroll_length * batch_size : ℕ) : ℚ) x / x

/-- Mapping the clamp over a zipWith-sum with a scaled second list fuses
into a single zipWith. -/
theorem map_clamp_zipWith (c : ℚ) : ∀ (rs bs : List ℚ),
    (List.zipWith (fun r i => r + i) rs (bs.map (fun b => b * c))).map (torchClamp (-1) 1)
      = List.zipWith (fun r b => torchClamp (-1) 1 (r + b * c)) rs bs
  | [], bs => by simp
  | r :: rs, [] => by simp
  | r :: rs, b :: bs => by
      simp only [List.map_cons, List.zipWith_cons_cons, List.map]
      rw [map_clamp_zipWith c rs bs]

/-- A zipWith that ignores its second argument is a map, when lengths agree. -/
theorem zipWith_fst_map (g : ℚ → ℚ) : ∀ (rs bs : List ℚ), rs.length = bs.length →
    List.zipWith (fun r _ => g r) rs bs = rs.map g
  | [], [], _ => by simp
  | [], _ :: _, h => by simp at h
  | _ :: _, [], h => by simp at h
  | r :: rs, b :: bs, h => by
      simp only [List.zipWith_cons_cons, List.map_cons]
      rw [zipWith_fst_map g rs bs (by simpa using h)]

/-- C1 counterexample: with the no_reward flag set, the learn step feeds the
scaled intrinsic bonus alone into V-trace, not the clipped sum of extrinsic
reward and scaled bonus: at extrinsic [1], bonus [0.2], coefficient 0.5 the
code produces [0.1] while the claimed formula gives [1]. -/
theorem C1_no_reward_counterexample :
    e3bClippedRewards ⟨1/2, true, 99/100⟩ [1] [1/5]
      ≠ List.zipWith (fun r b => torchClamp (-1) 1 (r + b * (1/2))) [1] [1/5] := by
  norm_num [e3bClippedRewards, e3bTotalRewards, torchClamp]

/-- C1 (amended): whenever the no_reward flag is disabled and the intrinsic
coefficient is nonnegative, the reward fed into the V-trace correction is
the sum of extrinsic reward and coefficient-scaled intrinsic bonus, clamped
to [-1, 1]; in particular the spec scenario with extrinsic [0,0,1], bonus
[0.2,0.3,0.1] and coefficient 0.5 yields pre-clip [0.1,0.15,1.05] and
post-clip [0.1,0.15,1]. -/
theorem C1_reward_composition (fl : LearnFlags) (rewards bonus : List ℚ)
    (hnr : fl.no_reward = false) (hc : 0 ≤ fl.intrinsic_reward_coef)
    (hlen : rewards.length = bonus.length) :
    e3bClippedRewards fl rewards bonus
      = List.zipWith (fun r b => torchClamp (-1) 1 (r + b * fl.intrinsic_reward_coef))
          rewards bonus
    ∧ e3bTotalRewards ⟨1/2, false, 99/100⟩ [0, 0, 1] [1/5, 3/10, 1/10]
        = [1/10, 3/20, 21/20]
    ∧ e3bClippedRewards ⟨1/2, false, 99/100⟩ [0, 0, 1] [1/5, 3/10, 1/10]
        = [1/10, 3/20, 1] := by
  refine ⟨?_, by norm_num [e3bTotalRewards],
    by norm_num [e3bClippedRewards, e3bTotalRewards, torchClamp]⟩
  unfold e3bClippedRewards e3bTotalRewards
  rw [hnr]
  simp only [Bool.false_eq_true, if_false]
  rcases lt_or_eq_of_le hc with h | h
  · rw [if_pos h, map_clamp_zipWith]
  · rw [← h]
    rw [if_neg (lt_irrefl 0)]
    simp only [mul_zero, add_zero]
    exact (zipWith_fst_map (torchClamp (-1) 1) rewards bonus hlen).symm

/-- C1 witness: the amended statement applied at the spec scenario. -/
theorem C1_reward_composition_witness :
    e3bClippedRewards ⟨1/2, false, 99/100⟩ [0, 0, 1] [1/5, 3/10, 1/10]
      = List.zipWith (fun r b => torchClamp (-1) 1 (r + b * (1/2)))
          [0, 0, 1] [1/5, 3/10, 1/10] :=
  (C1_reward_composition ⟨1/2, false, 99/100⟩ [0, 0, 1] [1/5, 3/10, 1/10]
    rfl (by norm_num) rfl).1

/-- C2: in RNDxE3B.learn the RND-times-episodic product (intrinsic_rewards_rnd,
line 61) is computed but never read again; the reward fed into the V-trace
recursion uses the episodic bonus alone.  At extrinsic [0], episodic bonus
[1/4], RND error [2], coefficient 1, the code feeds [1/4] (episodic alone)
while the claimed product-based reward is clamp(0 + 1 * (2 * 1/4)) = 1/2. -/
theorem C2_rnd_product_unused :
    (RNDxE3B_learnRewards ⟨1, false, 99/100⟩ [0] [1/4] [2]).1 = [1/4]
    ∧ (RNDxE3B_learnRewards ⟨1, false, 99/100⟩ [0] [1/4] [2]).2 = [1/2]
    ∧ List.zipWith (fun r p => torchClamp (-1) 1 (r + p * 1)) [0]
        (RNDxE3B_learnRewards ⟨1, false, 99/100⟩ [0] [1/4] [2]).2 = [1/2]
    ∧ ([1/4] : List ℚ) ≠ [1/2] := by
  refine ⟨?_, ?_, ?_, by norm_num⟩ <;>
    norm_num [RNDxE3B_learnRewards, torchClamp]

/-- C3: the per-step discount is the configured discounting factor times
(1 - real_done): it equals 0 exactly when real_done is set at that step
(discounting positive), and a step whose real_done flag is clear keeps the
full discounting factor — the done flag never enters the computation, so a
merely-truncated step (done set, real_done clear) is discounted normally. -/
theorem C3_discount_uses_real_done (fl : LearnFlags) (real_done : List Bool)
    (t : ℕ) (ht : t < real_done.length) (hγ : 0 < fl.discounting) :
    (e3bDiscounts fl real_done).get? t
      = some (if real_done.get ⟨t, ht⟩ then 0 else fl.discounting)
    ∧ ((e3bDiscounts fl real_done).get? t = some 0 ↔ real_done.get ⟨t, ht⟩ = true)
    ∧ (real_done.get ⟨t, ht⟩ = false →
        (e3bDiscounts fl real_done).get? t = some fl.discounting) := by
  have key : (e3bDiscounts fl real_done).get? t
      = some (if real_done.get ⟨t, ht⟩ then 0 else fl.discounting) := by
    have h1 : (e3bDiscounts fl real_done).get? t
        = some (|1 - (if real_done.get ⟨t, ht⟩ then (1 : ℚ) else 0)| * fl.discounting) := by
      unfold e3bDiscounts
      rw [List.get?_map, List.get?_eq_get ht]
      rfl
    rw [h1]
    cases real_done.get ⟨t, ht⟩ <;> norm_num
  refine ⟨key, ?_, ?_⟩
  · rw [key]
    cases real_done.get ⟨t, ht⟩ <;> simp [hγ.ne']
  · intro h
    rw [key, h]
    rfl

/-- C3 witness: a two-step batch with real_done = [false, true] under
discounting 99/100 gets discount 99/100 at step 0 and 0 at step 1. -/
theorem C3_discount_witness :
    (e3bDiscounts ⟨1/2, false, 99/100⟩ [false, true]).get? 0 = some (99/100)
    ∧ (e3bDiscounts ⟨1/2, false, 99/100⟩ [false, true]).get? 1 = some 0 := by
  constructor
  · have h := (C3_discount_uses_real_done ⟨1/2, false, 99/100⟩ [false, true]
      0 (by norm_num) (by norm_num)).1
    simpa using h
  · have h := (C3_discount_uses_real_done ⟨1/2, false, 99/100⟩ [false, true]
      1 (by norm_num) (by norm_num)).1
    simpa using h

/-- C10: the learning-rate multiplier equals
1 - min(epoch * unroll_length * batch_size, x) / x with x = max(total_frames, 1e8);
it lies in [0, 1], decreases monotonically in the epoch, and is exactly 0
once epoch * unroll_length * batch_size reaches x — in particular it is
never negative however long training runs. -/
theorem C10_lr_schedule (tf T B : ℕ) :
    (∀ e, lr_lambda tf T B e
        = 1 - min ((e * T * B : ℕ) : ℚ) (max (tf : ℚ) (10 ^ 8)) / max (tf : ℚ) (10 ^ 8))
    ∧ (∀ e, 0 ≤ lr_lambda tf T B e ∧ lr_lambda tf T B e ≤ 1)
    ∧ (∀ e e2, e ≤ e2 → lr_lambda tf T B e2 ≤ lr_lambda tf T B e)
    ∧ (∀ e, max (tf : ℚ) (10 ^ 8) ≤ ((e * T * B : ℕ) : ℚ) → lr_lambda tf T B e = 0) := by
  have hx : (0 : ℚ) < max (tf : ℚ) (10 ^ 8) :=
    lt_of_lt_of_le (by norm_num) (le_max_right _ _)
  have hform : ∀ e, lr_lambda tf T B e
      = 1 - min ((e * T * B : ℕ) : ℚ) (max (tf : ℚ) (10 ^ 8)) / max (tf : ℚ) (10 ^ 8) := by
    intro e
    simp only [lr_lambda, npMaximum_eq_max, pyMin_eq_min]
  refine ⟨hform, ?_, ?_, ?_⟩
  · intro e
    rw [hform e]
    constructor
    · have h1 : min ((e * T * B : ℕ) : ℚ) (max (tf : ℚ) (10 ^ 8)) / max (tf : ℚ) (10 ^ 8) ≤ 1 :=
        (div_le_one hx).mpr (min_le_right _ _)
      linarith
    · have h0 : 0 ≤ min ((e * T * B : ℕ) : ℚ) (max (tf : ℚ) (10 ^ 8)) :=
        le_min (Nat.cast_nonneg _) hx.le
      have h1 : 0 ≤ min ((e * T * B : ℕ) : ℚ) (max (tf : ℚ) (10 ^ 8)) / max (tf : ℚ) (10 ^ 8) :=
        div_nonneg h0 hx.le
      linarith
  · intro e e2 he
    rw [hform e, hform e2]
    have hcast : ((e * T * B : ℕ) : ℚ) ≤ ((e2 * T * B : ℕ) : ℚ) := by
      exact_mod_cast Nat.mul_le_mul_right B (Nat.mul_le_mul_right T he)
    have hmin : min ((e * T * B : ℕ) : ℚ) (max (tf : ℚ) (10 ^ 8))
        ≤ min ((e2 * T * B : ℕ) : ℚ) (max (tf : ℚ) (10 ^ 8)) :=
      min_le_min hcast le_rfl
    have hdiv := (div_le_div_iff_of_pos_right hx).mpr hmin
    linarith
  · intro e he
    rw [hform e, min_eq_right he, div_self hx.ne']
    ring

/-- C10 witness: the schedule multiplier at total_frames 1000, unroll 2,
batch 3 is monotone between epochs 4 and 5 and equals 1 - 30/10^8 at 5. -/
theorem C10_lr_schedule_witness : lr_lambda 1000 2 3 5 ≤ lr_lambda 1000 2 3 4 :=
  (C10_lr_schedule 1000 2 3).2.2.1 4 5 (by norm_num)

/-- Events of the shutdown phase of train. -/
inductive TrainEvent
  | joinLearnerThread
  | pushSentinel
  | joinActor
  | finalCheckpoint
  | closeLogger
deriving DecidableEq

/-- Mirrors the shutdown control flow of train (src/algos/e3b.py lines
247-284, identically src/algos/RNDxE3B.py lines 275-312).  On
KeyboardInterrupt the except clause returns, so only the finally clause
runs — one sentinel per actor is pushed into the free queue and each actor
process is joined — and the checkpoint call and logger close placed after
the try statement are skipped.  On normal completion the else clause joins
the learner threads, the finally clause pushes sentinels and joins actors,
and then the final checkpoint is written and the logger closed. -/
def trainShutdown (interrupted : Bool) (num_actors num_threads : ℕ) : List TrainEvent :=
  let finallyEvents := List.replicate num_actors TrainEvent.pushSentinel
      ++ List.replicate num_actors TrainEvent.joinActor
  if interrupted then finallyEvents
  else List.replicate num_threads TrainEvent.joinLearnerThread ++ finallyEvents
    ++ [TrainEvent.finalCheckpoint, TrainEvent.closeLogger]

/-- C4 counterexample: a keyboard interrupt during the wait loop of train
with 2 actors and 1 learner thread produces a shutdown that writes no final
checkpoint — the except clause returns, skipping the checkpoint call after
the try statement. -/
theorem C4_no_checkpoint_on_interrupt :
    TrainEvent.finalCheckpoint ∉ trainShutdown true 2 1 := by
  decide

/-- C4 (amended): on keyboard interrupt, train performs orderly shutdown
that pushes one sentinel per actor and joins every actor, but does not
write a final checkpoint; the final checkpoint is written only on the
normal-completion path. -/
theorem C4_interrupt_shutdown (nA nT : ℕ) :
    (trainShutdown true nA nT).count TrainEvent.pushSentinel = nA
    ∧ (trainShutdown true nA nT).count TrainEvent.joinActor = nA
    ∧ TrainEvent.finalCheckpoint ∉ trainShutdown true nA nT
    ∧ TrainEvent.finalCheckpoint ∈ trainShutdown false nA nT := by
  refine ⟨?_, ?_, ?_, ?_⟩ <;>
    simp [trainShutdown, List.count_append, List.count_replicate, List.mem_replicate]

/-- Flag fields read by the checkpoint handling in init_models_and_states. -/
structure InitFlags where
  checkpoint : Option String
  model : String
  continue_learning : Bool
deriving DecidableEq

/-- Mirrors the guard on src/init_models_and_states.py line 69:
flags.checkpoint is not None and len(flags.checkpoint) > 0. -/
def hasCheckpointArg (c : Option String) : Bool :=
  match c with
  | none => false
  | some s => decide (0 < s.length)

/-- The checkpoint key the exploration-model load path indexes without a
presence check: actor_model_state_dict on line 78, or
actor_exploration_model_state_dict on line 82 when continue_learning. -/
def explorationRequiredKey (continue_learning : Bool) : String :=
  if continue_learning then "actor_exploration_model_state_dict"
  else "actor_model_state_dict"

/-- The checkpoint fields recognized by the continue_learning load block of
init_models_and_states, in source order (lines 151-175). -/
def recognizedCheckpointFields : List String :=
  ["actor_model_state_dict", "state_embedding_model_state_dict",
   "inverse_dynamics_model_state_dict", "forward_dynamics_model_state_dict",
   "random_target_network_state_dict", "predictor_network_state_dict",
   "learner_model_optimizer_state_dict", "state_embedding_optimizer_state_dict",
   "predictor_optimizer_state_dict", "inverse_dynamics_optimizer_state_dict",
   "forward_dynamics_optimizer_state_dict", "scheduler_state_dict"]

/-- Outcome of the checkpoint handling in init_models_and_states: whether an
exploration model was loaded, and which recognized fields the
continue_learning block restored. -/
structure InitOutcome where
  explorationModelLoaded : Bool
  loadedFields : List String
deriving DecidableEq

/-- Mirrors the checkpoint-dependent control flow of init_models_and_states
(src/init_models_and_states.py lines 67-83 and 149-175).  A checkpoint
record is abstracted by the list of keys it contains.  The exploration-model
path (lines 69-83) raises NotImplementedError for model vanilla and raises
KeyError when the key it indexes is absent from the record; the
continue_learning block (lines 149-175) guards each recognized field with a
presence check and loads exactly the present ones. -/
def init_models_and_states (fl : InitFlags) (ckpt : List String) :
    Except String InitOutcome :=
  let explorationStep : Except String Bool :=
    if hasCheckpointArg fl.checkpoint then
      if fl.model = "vanilla" then
        Except.error "NotImplementedError: vanilla cannot load an exploration model"
      else if explorationRequiredKey fl.continue_learning ∈ ckpt then
        Except.ok true
      else
        Except.error "KeyError"
    else
      Except.ok false
  match explorationStep with
  | Except.error e => Except.error e
  | Except.ok explorationModelLoaded =>
      Except.ok ⟨explorationModelLoaded,
        if fl.checkpoint.isSome && fl.continue_learning then
          recognizedCheckpointFields.filter (fun k => decide (k ∈ ckpt))
        else []⟩

/-- Startup events of train. -/
inductive TrainStartEvent
  | initModelsCall
  | spawnActor (i : ℕ)
  | pushFreeIndex (m : ℕ)
  | startLearnerThread (i : ℕ)
deriving DecidableEq

/-- Mirrors the startup order of train (src/algos/e3b.py lines 159-227):
init_models_and_states is called first (line 159), then the actor processes
are spawned (lines 180-189), then the buffer indices are pushed into the
free queue (lines 219-220), then the learner threads start (lines 222-227). -/
def trainStartupEvents (num_actors num_buffers num_threads : ℕ) : List TrainStartEvent :=
  [TrainStartEvent.initModelsCall]
    ++ (List.range num_actors).map TrainStartEvent.spawnActor
    ++ (List.range num_buffers).map TrainStartEvent.pushFreeIndex
    ++ (List.range num_threads).map TrainStartEvent.startLearnerThread

/-- C6: a nonempty exploration checkpoint combined with the vanilla variant
makes init_models_and_states raise NotImplementedError, and in train the
init_models_and_states call strictly precedes every actor spawn, so the
configuration is rejected before any actor worker process starts. -/
theorem C6_vanilla_checkpoint_rejected (fl : InitFlags) (ckpt : List String)
    (hck : hasCheckpointArg fl.checkpoint = true) (hm : fl.model = "vanilla")
    (nA nB nT : ℕ) :
    init_models_and_states fl ckpt
      = Except.error "NotImplementedError: vanilla cannot load an exploration model"
    ∧ (trainStartupEvents nA nB nT).get? 0 = some TrainStartEvent.initModelsCall
    ∧ (∀ k i, (trainStartupEvents nA nB nT).get? k
        = some (TrainStartEvent.spawnActor i) → 0 < k) := by
  refine ⟨?_, rfl, ?_⟩
  · unfold init_models_and_states
    rw [hck, hm]
    simp
  · intro k i h
    by_contra hk
    have hk0 : k = 0 := by omega
    subst hk0
    simp [trainStartupEvents] at h

/-- C6 witness: the error at a concrete configuration. -/
theorem C6_vanilla_checkpoint_witness :
    init_models_and_states ⟨some "ck.tar", "vanilla", false⟩ []
      = Except.error "NotImplementedError: vanilla cannot load an exploration model" :=
  (C6_vanilla_checkpoint_rejected ⟨some "ck.tar", "vanilla", false⟩ []
    (by decide) rfl 2 3 1).1

/-- C7 counterexample: loading a non-continuation exploration checkpoint
whose record lacks the actor_model_state_dict field raises KeyError instead
of skipping the absent field — line 78 of init_models_and_states indexes
the key without a presence check. -/
theorem C7_missing_key_counterexample :
    init_models_and_states ⟨some "model.tar", "e3b", false⟩ []
      = Except.error "KeyError" := by
  rfl

/-- C7 (amended): the continue_learning load block of init_models_and_states
restores each recognized field exactly when it is present, skipping absent
fields without error; but the exploration-model load path requires the one
field it indexes (actor_model_state_dict, or
actor_exploration_model_state_dict when continue_learning) and fails with
KeyError when that field is absent. -/
theorem C7_checkpoint_fields :
    (∀ (fl : InitFlags) (ckpt : List String), fl.model ≠ "vanilla" →
      (hasCheckpointArg fl.checkpoint = true →
        explorationRequiredKey fl.continue_learning ∈ ckpt) →
      ∃ r, init_models_and_states fl ckpt = Except.ok r
        ∧ ((fl.checkpoint.isSome && fl.continue_learning) = true →
            ∀ k ∈ recognizedCheckpointFields, (k ∈ r.loadedFields ↔ k ∈ ckpt))
        ∧ ((fl.checkpoint.isSome && fl.continue_learning) = false →
            r.loadedFields = []))
    ∧ (∀ (fl : InitFlags) (ckpt : List String),
        hasCheckpointArg fl.checkpoint = true → fl.model ≠ "vanilla" →
        explorationRequiredKey fl.continue_learning ∉ ckpt →
        init_models_and_states fl ckpt = Except.error "KeyError") := by
  constructor
  · intro fl ckpt hm hkey
    refine ⟨⟨hasCheckpointArg fl.checkpoint,
      if fl.checkpoint.isSome && fl.continue_learning then
        recognizedCheckpointFields.filter (fun k => decide (k ∈ ckpt))
      else []⟩, ?_, ?_, ?_⟩
    · unfold init_models_and_states
      cases hc : hasCheckpointArg fl.checkpoint
      · simp
      · rw [if_pos rfl, if_neg hm, if_pos (hkey hc)]
    · intro hcl k hk
      simp [hcl, List.mem_filter, hk]
    · intro hcl
      simp [hcl]
  · intro fl ckpt hck hm hkey
    unfold init_models_and_states
    rw [hck, if_pos rfl, if_neg hm, if_neg hkey]

/-- C7 witness: both halves of the amended statement at concrete inputs — a
continuation checkpoint containing only the exploration key and the
scheduler field loads exactly those recognized fields that are present, and
a non-continuation record without actor_model_state_dict errors. -/
theorem C7_checkpoint_fields_witness :
    (∃ r, init_models_and_states ⟨some "model.tar", "e3b", true⟩
        ["actor_exploration_model_state_dict", "scheduler_state_dict"]
        = Except.ok r
      ∧ (((some "model.tar" : Option String).isSome && true) = true →
          ∀ k ∈ recognizedCheckpointFields,
            (k ∈ r.loadedFields ↔
              k ∈ ["actor_exploration_model_state_dict", "scheduler_state_dict"]))
      ∧ (((some "model.tar" : Option String).isSome && true) = false →
          r.loadedFields = []))
    ∧ init_models_and_states ⟨some "model.tar", "rnd", false⟩ ["scheduler_state_dict"]
        = Except.error "KeyError" :=
  ⟨C7_checkpoint_fields.1 ⟨some "model.tar", "e3b", true⟩
      ["actor_exploration_model_state_dict", "scheduler_state_dict"]
      (by decide) (fun _ => by decide),
   C7_checkpoint_fields.2 ⟨some "model.tar", "rnd", false⟩ ["scheduler_state_dict"]
      (by decide) (by decide) (by decide)⟩

/-- Operations on the trajectory buffer pool.  acquireFree and acquireFull
pop the head of the respective FIFO queue (blocking on an empty queue is
modelled by the operation being undefined there); publishFull and release
hand a held slot index on; pushSentinel enqueues the per-actor shutdown
sentinel into the free queue. -/
inductive PoolOp
  | acquireFree
  | publishFull (i : ℕ)
  | acquireFull
  | release (i : ℕ)
  | pushSentinel
deriving DecidableEq

/-- State of the buffer pool: the free queue (entries are either a slot
index or the none sentinel), the full queue, and the slot indices currently
held by actor workers and by the learner. -/
structure PoolState where
  free : List (Option ℕ)
  full : List ℕ
  actorHeld : List ℕ
  learnerHeld : List ℕ
deriving DecidableEq

/-- Modelled from the spec: the BufferPool producer/consumer contract of
§4.1 and §5 — the act and get_batch helpers of src/utils.py are not among
the sources, so the four queue operations follow the contract in the spec.
Queues are FIFO: pop at the head, push at the tail.  An actor that pops the
sentinel terminates and holds no slot. -/
def poolStep (s : PoolState) (op : PoolOp) : Option PoolState :=
  match op with
  | PoolOp.acquireFree =>
    match s.free with
    | [] => none
    | none :: rest => some { s with free := rest }
    | some i :: rest => some { s with free := rest, actorHeld := s.actorHeld ++ [i] }
  | PoolOp.publishFull i =>
    if i ∈ s.actorHeld then
      some { s with actorHeld := s.actorHeld.erase i, full := s.full ++ [i] }
    else none
  | PoolOp.acquireFull =>
    match s.full with
    | [] => none
    | i :: rest => some { s with full := rest, learnerHeld := s.learnerHeld ++ [i] }
  | PoolOp.release i =>
    if i ∈ s.learnerHeld then
      some { s with learnerHeld := s.learnerHeld.erase i, free := s.free ++ [some i] }
    else none
  | PoolOp.pushSentinel => some { s with free := s.free ++ [none] }

/-- Mirrors train startup (src/algos/e3b.py lines 219-220): each of the N
buffer indices is pushed into the free queue once; the full queue starts
empty and no slot is held. -/
def poolStart (N : ℕ) : PoolState := ⟨(List.range N).map some, [], [], []⟩

/-- Run a sequence of pool operations from a state. -/
def runPool (s : PoolState) : List PoolOp → Option PoolState
  | [] => some s
  | op :: ops =>
    match poolStep s op with
    | none => none
    | some s2 => runPool s2 ops

/-- Number of slot indices in the pool state: indices in the free queue
(the sentinel does not count), plus the full queue, plus the indices held
by actors and by the learner. -/
def slotCount (s : PoolState) : ℕ :=
  (s.free.filterMap id).length + s.full.length + s.actorHeld.length + s.learnerHeld.length

/-- Every free-queue entry is a slot index below N or the sentinel, and
every index in the full queue or held by a worker is below N. -/
def poolInRange (N : ℕ) (s : PoolState) : Prop :=
  (∀ e ∈ s.free, e = none ∨ ∃ i, e = some i ∧ i < N)
  ∧ (∀ i ∈ s.full, i < N) ∧ (∀ i ∈ s.actorHeld, i < N) ∧ (∀ i ∈ s.learnerHeld, i < N)

/-- Each defined pool operation preserves the slot count. -/
theorem poolStep_slotCount {s s2 : PoolState} {op : PoolOp}
    (h : poolStep s op = some s2) : slotCount s2 = slotCount s := by
  cases op with
  | acquireFree =>
    simp only [poolStep] at h
    match hf : s.free with
    | [] => rw [hf] at h; exact absurd h (by simp)
    | none :: rest =>
      rw [hf] at h
      injection h with h
      subst h
      simp [slotCount, hf]
    | some i :: rest =>
      rw [hf] at h
      injection h with h
      subst h
      simp [slotCount, hf]
      omega
  | publishFull i =>
    simp only [poolStep] at h
    by_cases hm : i ∈ s.actorHeld
    · rw [if_pos hm] at h
      injection h with h
      subst h
      have hpos : 0 < s.actorHeld.length := List.length_pos.mpr (List.ne_nil_of_mem hm)
      simp [slotCount, List.length_erase_of_mem hm]
      omega
    · rw [if_neg hm] at h
      exact absurd h (by simp)
  | acquireFull =>
    simp only [poolStep] at h
    match hf : s.full with
    | [] => rw [hf] at h; exact absurd h (by simp)
    | i :: rest =>
      rw [hf] at h
      injection h with h
      subst h
      simp [slotCount, hf]
      omega
  | release i =>
    simp only [poolStep] at h
    by_cases hm : i ∈ s.learnerHeld
    · rw [if_pos hm] at h
      injection h with h
      subst h
      have hpos : 0 < s.learnerHeld.length := List.length_pos.mpr (List.ne_nil_of_mem hm)
      simp [slotCount, List.length_erase_of_mem hm, List.filterMap_append]
      omega
    · rw [if_neg hm] at h
      exact absurd h (by simp)
  | pushSentinel =>
    simp only [poolStep] at h
    injection h with h
    subst h
    simp [slotCount, List.filterMap_append]

/-- Each defined pool operation keeps all indices in range. -/
theorem poolStep_inRange {N : ℕ} {s s2 : PoolState} {op : PoolOp}
    (hr : poolInRange N s) (h : poolStep s op = some s2) : poolInRange N s2 := by
  obtain ⟨hfree, hfull, hactor, hlearner⟩ := hr
  cases op with
  | acquireFree =>
    simp only [poolStep] at h
    match hf : s.free with
    | [] => rw [hf] at h; exact absurd h (by simp)
    | none :: rest =>
      rw [hf] at h
      injection h with h
      subst h
      exact ⟨fun e he => hfree e (by simp [hf, he]), hfull, hactor, hlearner⟩
    | some i :: rest =>
      rw [hf] at h
      injection h with h
      subst h
      refine ⟨fun e he => hfree e (by simp [hf, he]), hfull, ?_, hlearner⟩
      intro j hj
      rcases List.mem_append.mp hj with hj | hj
      · exact hactor j hj
      · have : j = i := by simpa using hj
        subst this
        have := hfree (some j) (by simp [hf])
        rcases this with h0 | ⟨i2, hi2, hlt⟩
        · exact absurd h0 (by simp)
        · have : j = i2 := by injection hi2
          rw [this]; exact hlt
  | publishFull i =>
    simp only [poolStep] at h
    by_cases hm : i ∈ s.actorHeld
    · rw [if_pos hm] at h
      injection h with h
      subst h
      refine ⟨hfree, ?_, ?_, hlearner⟩
      · intro j hj
        rcases List.mem_append.mp hj with hj | hj
        · exact hfull j hj
        · have : j = i := by simpa using hj
          subst this
          exact hactor j hm
      · intro j hj
        exact hactor j (List.mem_of_mem_erase hj)
    · rw [if_neg hm] at h
      exact absurd h (by simp)
  | acquireFull =>
    simp only [poolStep] at h
    match hf : s.full with
    | [] => rw [hf] at h; exact absurd h (by simp)
    | i :: rest =>
      rw [hf] at h
      injection h with h
      subst h
      refine ⟨hfree, fun j hj => hfull j (by simp [hf, hj]), hactor, ?_⟩
      intro j hj
      rcases List.mem_append.mp hj with hj | hj
      · exact hlearner j hj
      · have : j = i := by simpa using hj
        subst this
        exact hfull j (by simp [hf])
  | release i =>
    simp only [poolStep] at h
    by_cases hm : i ∈ s.learnerHeld
    · rw [if_pos hm] at h
      injection h with h
      subst h
      refine ⟨?_, hfull, hactor, ?_⟩
      · intro e he
        rcases List.mem_append.mp he with he | he
        · exact hfree e he
        · have : e = some i := by simpa using he
          subst this
          exact Or.inr ⟨i, rfl, hlearner i hm⟩
      · intro j hj
        exact hlearner j (List.mem_of_mem_erase hj)
    · rw [if_neg hm] at h
      exact absurd h (by simp)
  | pushSentinel =>
    simp only [poolStep] at h
    injection h with h
    subst h
    refine ⟨?_, hfull, hactor, hlearner⟩
    intro e he
    rcases List.mem_append.mp he with he | he
    · exact hfree e he
    · have : e = none := by simpa using he
      exact Or.inl this

/-- Running any operation sequence preserves slot count and index range. -/
theorem runPool_invariant {N : ℕ} : ∀ (ops : List PoolOp) {s s2 : PoolState},
    runPool s ops = some s2 → poolInRange N s →
    slotCount s2 = slotCount s ∧ poolInRange N s2
  | [], s, s2, h, hr => by
      unfold runPool at h
      injection h with h
      subst h
      exact ⟨rfl, hr⟩
  | op :: ops, s, s2, h, hr => by
      unfold runPool at h
      match hstep : poolStep s op with
      | none => rw [hstep] at h; exact absurd h (by simp)
      | some s1 =>
        rw [hstep] at h
        have ih := runPool_invariant ops h (poolStep_inRange hr hstep)
        exact ⟨ih.1.trans (poolStep_slotCount hstep), ih.2⟩

/-- The startup state is in range and holds exactly N slot indices. -/
theorem poolStart_inRange (N : ℕ) : poolInRange N (poolStart N) := by
  refine ⟨?_, by simp [poolStart], by simp [poolStart], by simp [poolStart]⟩
  intro e he
  simp only [poolStart, List.mem_map, List.mem_range] at he
  obtain ⟨i, hi, rfl⟩ := he
  exact Or.inr ⟨i, rfl, hi⟩

/-- C5: starting from the train startup state, which pushes each of the N
slot indices into the free queue exactly once with the full queue empty,
every state reachable by pool operations conserves the slot count: free
indices + full queue + actor-held + learner-held = N; and every free-queue
entry in any reachable state is a slot index below N or the shutdown
sentinel — the sentinel is the only non-index value.  Actor and learner
counts are abstracted: the operation list may interleave any number of
workers. -/
theorem C5_pool_conservation (N : ℕ) (hN : 1 ≤ N) (ops : List PoolOp)
    (s : PoolState) (hrun : runPool (poolStart N) ops = some s) :
    slotCount s = N
    ∧ slotCount (poolStart N) = N
    ∧ (poolStart N).full = []
    ∧ (poolStart N).free.Nodup
    ∧ (∀ i, some i ∈ (poolStart N).free ↔ i < N)
    ∧ (∀ e ∈ s.free, e = none ∨ ∃ i, e = some i ∧ i < N) := by
  have hstart : slotCount (poolStart N) = N := by
    simp [slotCount, poolStart, List.filterMap_map]
  have hinv := runPool_invariant (N := N) ops hrun (poolStart_inRange N)
  have hinj : Function.Injective (some : ℕ → Option ℕ) := fun a b h => by
    injection h
  refine ⟨hinv.1.trans hstart, hstart, rfl, ?_, ?_, hinv.2.1⟩
  · exact (List.nodup_range N).map hinj
  · intro i
    simp [poolStart, List.mem_map, List.mem_range]

/-- C5 witness: a concrete run with N = 2 — acquire, publish, consume,
release, push a sentinel, acquire again — ends with both slots accounted
for: one in the free queue, one actor-held, plus the sentinel. -/
theorem C5_pool_conservation_witness :
    slotCount ⟨[some 0, none], [], [1], []⟩ = 2 :=
  (C5_pool_conservation 2 (by decide)
    [PoolOp.acquireFree, PoolOp.publishFull 0, PoolOp.acquireFull,
     PoolOp.release 0, PoolOp.pushSentinel, PoolOp.acquireFree]
    ⟨[some 0, none], [], [1], []⟩ (by decide)).1

/-- Mirrors the batch_and_learn loop (src/algos/e3b.py lines 195-214,
identically src/algos/RNDxE3B.py lines 217-238): while the frame counter is
below total_frames, get a batch, learn, and add
unroll_length * batch_size (here stepSize) to the counter; then return.
Returns the number of completed iterations and the final counter value. -/
def batch_and_learn (stepSize total : ℕ) (hstep : 0 < stepSize) (frames : ℕ) : ℕ × ℕ :=
  if h : frames < total then
    ((batch_and_learn stepSize total hstep (frames + stepSize)).1 + 1,
     (batch_and_learn stepSize total hstep (frames + stepSize)).2)
  else (0, frames)
termination_by total - frames
decreasing_by omega

/-- A list of constant entries sums to its length times the constant. -/
theorem sum_of_const_steps (s : ℕ) : ∀ (l : List ℕ), (∀ x ∈ l, x = s) →
    l.sum = l.length * s
  | [], _ => by simp
  | a :: l, h => by
      have ha : a = s := h a (by simp)
      have hl := sum_of_const_steps s l (fun x hx => h x (by simp [hx]))
      rw [List.sum_cons, hl, ha, List.length_cons]
      ring

/-- Core facts about the learner loop, by strong induction on the distance
to the target: final counter = start + iterations * stepSize, the final
counter has reached the target, and iterations * stepSize is bounded. -/
theorem batch_and_learn_spec (s t : ℕ) (hs : 0 < s) : ∀ (n f : ℕ), t - f ≤ n →
    (batch_and_learn s t hs f).2 = f + (batch_and_learn s t hs f).1 * s
    ∧ t ≤ (batch_and_learn s t hs f).2
    ∧ (batch_and_learn s t hs f).1 * s ≤ t - f + s := by
  intro n
  induction n with
  | zero =>
    intro f hf
    have hft : ¬ f < t := by omega
    rw [batch_and_learn, dif_neg hft]
    simp
    omega
  | succ n ih =>
    intro f hf
    by_cases hft : f < t
    · have h1 := ih (f + s) (by omega)
      rw [batch_and_learn, dif_pos hft]
      simp only
      refine ⟨?_, ?_, ?_⟩
      · rw [h1.1]
        ring
      · exact h1.2.1
      · have hmul : ((batch_and_learn s t hs (f + s)).1 + 1) * s
            = (batch_and_learn s t hs (f + s)).1 * s + s := by ring
        rcases le_or_lt t (f + s) with hts | hts
        · have hz : batch_and_learn s t hs (f + s) = (0, f + s) := by
            rw [batch_and_learn, dif_neg (not_lt.mpr hts)]
          rw [hz]
          simp
        · have := h1.2.2
          omega
    · rw [batch_and_learn, dif_neg hft]
      simp
      omega

/-- C9: every completed learner-loop iteration adds exactly stepSize =
unroll_length * batch_size to the frame counter, so the final counter is
start + iterations * stepSize and is a multiple of stepSize when started at
0; the loop exits once the counter reaches the total-frames target, and a
loop entered at or past the target finishes its check and performs zero
further iterations; iterations * stepSize ≤ target - start + stepSize, so
for stepSize ≥ 1 only finitely many iterations occur; and any number of
completed steps by any interleaving of threads (a list of per-step
increments all equal to stepSize) moves the shared counter by a multiple of
stepSize. -/
theorem C9_learner_loop (s t f : ℕ) (hs : 0 < s) :
    (batch_and_learn s t hs f).2 = f + (batch_and_learn s t hs f).1 * s
    ∧ t ≤ (batch_and_learn s t hs f).2
    ∧ (t ≤ f → batch_and_learn s t hs f = (0, f))
    ∧ (batch_and_learn s t hs f).1 * s ≤ t - f + s
    ∧ s ∣ (batch_and_learn s t hs 0).2
    ∧ (∀ increments : List ℕ, (∀ x ∈ increments, x = s) →
        increments.sum = increments.length * s) := by
  have hspec := batch_and_learn_spec s t hs (t - f) f le_rfl
  have hspec0 := batch_and_learn_spec s t hs (t - 0) 0 le_rfl
  refine ⟨hspec.1, hspec.2.1, ?_, hspec.2.2, ?_, sum_of_const_steps s⟩
  · intro hft
    rw [batch_and_learn, dif_neg (by omega)]
  · rw [hspec0.1]
    simp only [Nat.zero_add]
    exact dvd_mul_left s _

/-- C9 witness: with stepSize 2 and target 3, a loop started at 0 reaches
at least 3 frames, and a loop entered at 3 performs no iteration. -/
theorem C9_learner_loop_witness :
    (3 : ℕ) ≤ (batch_and_learn 2 3 (by norm_num) 0).2
    ∧ batch_and_learn 2 3 (by norm_num) 3 = (0, 3) :=
  ⟨(C9_learner_loop 2 3 0 (by norm_num)).2.1,
   (C9_learner_loop 2 3 3 (by norm_num)).2.2.1 (le_refl 3)⟩

/-- Atomic steps of the learn function (src/algos/e3b.py lines 34-147), at
statement granularity in source order.  The entire function body executes
under the with-lock statement. -/
inductive LearnAction
  | acquireLock
  | computeIntrinsicRewards
  | computeForwardAndVtrace
  | computeLosses
  | schedulerStep
  | zeroGradients
  | backwardPass
  | clipGradNorms
  | optimizerStep
  | publishParams
  | releaseLock
deriving DecidableEq

/-- The statements of learn inside the critical section, in source order:
intrinsic-reward computation (lines 51-67), model forward pass and V-trace
(69-102), loss and stats composition (104-132), scheduler.step (134),
zero_grad calls (135-137), backward (138), gradient clipping (139-141), the
optimizer steps (142-144), and the publication of the learner parameters to
the shared actor model (146). -/
def learnCriticalSection : List LearnAction :=
  [LearnAction.computeIntrinsicRewards, LearnAction.computeForwardAndVtrace,
   LearnAction.computeLosses, LearnAction.schedulerStep, LearnAction.zeroGradients,
   LearnAction.backwardPass, LearnAction.clipGradNorms, LearnAction.optimizerStep,
   LearnAction.publishParams]

/-- The full learn body: acquire the lock, run the critical section, release
the lock — the with-statement spans the whole function body (line 49). -/
def learnProgram : List LearnAction :=
  LearnAction.acquireLock :: learnCriticalSection ++ [LearnAction.releaseLock]

/-- Lock identities: the module-level default lock created once when learn is
defined (lock=threading.Lock() in the def header, line 47), or an explicitly
passed lock object. -/
inductive LockId
  | moduleDefault
  | explicitArg (n : ℕ)
deriving DecidableEq

/-- Mirrors python default-argument semantics for the lock parameter of learn: a
call that passes no lock uses the single module-level default lock, which is
created once at definition time and therefore shared by all such calls. -/
def learnLockUsed (passed : Option LockId) : LockId :=
  passed.getD LockId.moduleDefault

/-- Mirrors the learn call inside batch_and_learn (src/algos/e3b.py lines
203-208): no lock argument is passed. -/
def batchAndLearnLockArg : Option LockId := none

/-- Two learner threads, each with the remainder of its program, plus the
current lock holder (none = lock free). -/
structure TwoThreads where
  prog0 : List LearnAction
  prog1 : List LearnAction
  holder : Option Bool
deriving DecidableEq

/-- The remaining program of a thread. -/
def threadProg (s : TwoThreads) (t : Bool) : List LearnAction :=
  if t then s.prog1 else s.prog0

/-- Replace the remaining program of a thread. -/
def setProg (s : TwoThreads) (t : Bool) (p : List LearnAction) : TwoThreads :=
  if t then { s with prog1 := p } else { s with prog0 := p }

/-- Replace the lock holder. -/
def setHolder (s : TwoThreads) (h : Option Bool) : TwoThreads :=
  { s with holder := h }

/-- One scheduler step: thread t executes the next action of its remaining
program.  acquireLock requires the lock to be free and takes it;
releaseLock requires t to hold the lock and frees it; any other action
needs nothing.  none means the scheduled thread cannot act there (it is
blocked or finished), so such a schedule is not an execution. -/
def lockStep (s : TwoThreads) (t : Bool) : Option (TwoThreads × LearnAction) :=
  match threadProg s t with
  | [] => none
  | a :: rest =>
    if a = LearnAction.acquireLock then
      if s.holder = none then
        some (setHolder (setProg s t rest) (some t), a)
      else none
    else if a = LearnAction.releaseLock then
      if s.holder = some t then
        some (setHolder (setProg s t rest) none, a)
      else none
    else some (setProg s t rest, a)

/-- Run a schedule (list of thread choices), collecting the executed
actions tagged with their thread. -/
def runSched (s : TwoThreads) : List Bool → Option (TwoThreads × List (Bool × LearnAction))
  | [] => some (s, [])
  | t :: ts =>
    match lockStep s t with
    | none => none
    | some (s2, a) =>
      match runSched s2 ts with
      | none => none
      | some (sf, tr) => some (sf, (t, a) :: tr)

theorem threadProg_setProg_same (s : TwoThreads) (t : Bool) (p : List LearnAction) :
    threadProg (setProg s t p) t = p := by
  cases t <;> simp [threadProg, setProg]

theorem threadProg_setProg_other (s : TwoThreads) (t : Bool) (p : List LearnAction) :
    threadProg (setProg s t p) (!t) = threadProg s (!t) := by
  cases t <;> simp [threadProg, setProg]

theorem threadProg_setHolder (s : TwoThreads) (h : Option Bool) (t : Bool) :
    threadProg (setHolder s h) t = threadProg s t := by
  cases t <;> simp [threadProg, setHolder]

theorem holder_setProg (s : TwoThreads) (t : Bool) (p : List LearnAction) :
    (setProg s t p).holder = s.holder := by
  cases t <;> simp [setProg]

theorem prog0_eq_threadProg (s : TwoThreads) : s.prog0 = threadProg s false := rfl

theorem prog1_eq_threadProg (s : TwoThreads) : s.prog1 = threadProg s true := rfl

theorem threadProg_done {final : TwoThreads} (hf0 : threadProg final false = [])
    (hf1 : threadProg final true = []) (t : Bool) : threadProg final t = [] := by
  cases t <;> assumption

theorem lockStep_empty {s : TwoThreads} {t : Bool} (hp : threadProg s t = []) :
    lockStep s t = none := by
  simp only [lockStep, hp]

theorem lockStep_acquire {s : TwoThreads} {t : Bool} {rest : List LearnAction}
    (hp : threadProg s t = LearnAction.acquireLock :: rest) (hh : s.holder = none) :
    lockStep s t = some (setHolder (setProg s t rest) (some t), LearnAction.acquireLock) := by
  simp [lockStep, hp, hh]

theorem lockStep_acquire_blocked {s : TwoThreads} {t : Bool} {rest : List LearnAction}
    (hp : threadProg s t = LearnAction.acquireLock :: rest) (hh : s.holder ≠ none) :
    lockStep s t = none := by
  simp [lockStep, hp, hh]

theorem lockStep_release {s : TwoThreads} {t : Bool} {rest : List LearnAction}
    (hp : threadProg s t = LearnAction.releaseLock :: rest) (hh : s.holder = some t) :
    lockStep s t = some (setHolder (setProg s t rest) none, LearnAction.releaseLock) := by
  simp [lockStep, hp, hh]

theorem lockStep_body {s : TwoThreads} {t : Bool} {a : LearnAction}
    {rest : List LearnAction} (hp : threadProg s t = a :: rest)
    (h1 : a ≠ LearnAction.acquireLock) (h2 : a ≠ LearnAction.releaseLock) :
    lockStep s t = some (setProg s t rest, a) := by
  simp only [lockStep, hp, if_neg h1, if_neg h2]

theorem runSched_nil {s final : TwoThreads} {trace : List (Bool × LearnAction)}
    (h : runSched s [] = some (final, trace)) : final = s ∧ trace = [] := by
  simp only [runSched, Option.some.injEq, Prod.mk.injEq] at h
  exact ⟨h.1.symm, h.2.symm⟩

theorem runSched_cons {s final s2 : TwoThreads} {u : Bool} {ts : List Bool}
    {trace : List (Bool × LearnAction)} {a : LearnAction}
    (hls : lockStep s u = some (s2, a))
    (h : runSched s (u :: ts) = some (final, trace)) :
    ∃ tr, runSched s2 ts = some (final, tr) ∧ trace = (u, a) :: tr := by
  simp only [runSched, hls] at h
  revert h
  cases hrs : runSched s2 ts with
  | none =>
    intro h
    exact absurd h (by simp)
  | some v =>
    obtain ⟨sf, tr⟩ := v
    intro h
    simp only [Option.some.injEq, Prod.mk.injEq] at h
    exact ⟨tr, by rw [h.1], h.2.symm⟩

theorem runSched_cons_blocked {s : TwoThreads} {u : Bool} {ts : List Bool}
    {r : TwoThreads × List (Bool × LearnAction)}
    (hls : lockStep s u = none) : runSched s (u :: ts) ≠ some r := by
  simp only [runSched, hls]
  exact fun h => Option.noConfusion h

theorem other_thread_of_ne {u t : Bool} (h : u ≠ t) : u = !t := by
  cases u <;> cases t <;> simp_all

/-- If two final thread programs are empty, a run from a state where both
programs are already empty does nothing. -/
theorem runSched_done {s final : TwoThreads} {sched : List Bool}
    {trace : List (Bool × LearnAction)}
    (h0 : threadProg s false = []) (h1 : threadProg s true = [])
    (h : runSched s sched = some (final, trace)) : final = s ∧ trace = [] := by
  cases sched with
  | nil => exact runSched_nil h
  | cons u ts =>
    have hnone : lockStep s u = none := lockStep_empty (threadProg_done h0 h1 u)
    exact absurd h (runSched_cons_blocked hnone)

/-- A thread holding the lock with the other thread finished runs its
remaining critical section and the release to completion, alone. -/
theorem run_section_other_done (t : Bool) (rest : List LearnAction) :
    ∀ (s final : TwoThreads) (sched : List Bool) (trace : List (Bool × LearnAction)),
      LearnAction.acquireLock ∉ rest → LearnAction.releaseLock ∉ rest →
      s.holder = some t →
      threadProg s t = rest ++ [LearnAction.releaseLock] →
      threadProg s (!t) = [] →
      runSched s sched = some (final, trace) →
      threadProg final false = [] → threadProg final true = [] →
      trace = (rest ++ [LearnAction.releaseLock]).map (fun a => (t, a)) := by
  induction rest with
  | nil =>
    intro s final sched trace _ _ hh hpt hpo h hf0 hf1
    cases sched with
    | nil =>
      obtain ⟨rfl, rfl⟩ := runSched_nil h
      have hd := threadProg_done hf0 hf1 t
      rw [hpt] at hd
      exact absurd hd (by simp)
    | cons u ts =>
      by_cases hut : u = t
      · subst hut
        simp only [List.nil_append] at hpt
        have hls := lockStep_release hpt hh
        obtain ⟨tr, hrs, htr⟩ := runSched_cons hls h
        have hd : ∀ u2 : Bool, threadProg (setHolder (setProg s u []) none) u2 = [] := by
          intro u2
          by_cases hu2 : u2 = u
          · subst hu2
            rw [threadProg_setHolder, threadProg_setProg_same]
          · have hu2e := other_thread_of_ne hu2
            subst hu2e
            rw [threadProg_setHolder, threadProg_setProg_other]
            exact hpo
        obtain ⟨_, rfl⟩ := runSched_done (hd false) (hd true) hrs
        rw [htr]
        simp
      · have hue := other_thread_of_ne hut
        subst hue
        have hls := lockStep_empty hpo
        exact absurd h (runSched_cons_blocked hls)
  | cons a rest2 ih =>
    intro s final sched trace hacq hrel hh hpt hpo h hf0 hf1
    cases sched with
    | nil =>
      obtain ⟨rfl, rfl⟩ := runSched_nil h
      have hd := threadProg_done hf0 hf1 t
      rw [hpt] at hd
      exact absurd hd (by simp)
    | cons u ts =>
      by_cases hut : u = t
      · subst hut
        have ha1 : a ≠ LearnAction.acquireLock := by
          rintro rfl
          exact hacq (List.mem_cons_self _ _)
        have ha2 : a ≠ LearnAction.releaseLock := by
          rintro rfl
          exact hrel (List.mem_cons_self _ _)
        have hpt2 : threadProg s u = a :: (rest2 ++ [LearnAction.releaseLock]) := by
          rw [hpt]
          simp
        have hls := lockStep_body hpt2 ha1 ha2
        obtain ⟨tr, hrs, htr⟩ := runSched_cons hls h
        have htail := ih (setProg s u (rest2 ++ [LearnAction.releaseLock])) final ts tr
          (fun hc => hacq (List.mem_cons_of_mem a hc))
          (fun hc => hrel (List.mem_cons_of_mem a hc))
          (by rw [holder_setProg]; exact hh)
          (threadProg_setProg_same s u _)
          (by rw [threadProg_setProg_other]; exact hpo)
          hrs hf0 hf1
        rw [htr, htail]
        simp
      · have hue := other_thread_of_ne hut
        subst hue
        have hls := lockStep_empty hpo
        exact absurd h (runSched_cons_blocked hls)

/-- With the lock free, one thread finished, and the other at the start of
learn, the remaining run is exactly the other thread executing learn. -/
theorem run_other_full (t : Bool) (s final : TwoThreads) (sched : List Bool)
    (trace : List (Bool × LearnAction))
    (hh : s.holder = none)
    (hpt : threadProg s t = [])
    (hpo : threadProg s (!t) = learnProgram)
    (h : runSched s sched = some (final, trace))
    (hf0 : threadProg final false = []) (hf1 : threadProg final true = []) :
    trace = learnProgram.map (fun a => (!t, a)) := by
  cases sched with
  | nil =>
    obtain ⟨rfl, rfl⟩ := runSched_nil h
    have hd := threadProg_done hf0 hf1 (!t)
    rw [hpo] at hd
    exact absurd hd (by simp [learnProgram])
  | cons u ts =>
    by_cases hut : u = t
    · subst hut
      have hls := lockStep_empty hpt
      exact absurd h (runSched_cons_blocked hls)
    · have hue := other_thread_of_ne hut
      subst hue
      have hpo2 : threadProg s (!t)
          = LearnAction.acquireLock :: (learnCriticalSection ++ [LearnAction.releaseLock]) :=
        hpo
      have hls := lockStep_acquire hpo2 hh
      obtain ⟨tr, hrs, htr⟩ := runSched_cons hls h
      have hs2h : (setHolder (setProg s (!t) (learnCriticalSection ++ [LearnAction.releaseLock]))
          (some (!t))).holder = some (!t) := rfl
      have hs2t : threadProg (setHolder (setProg s (!t)
          (learnCriticalSection ++ [LearnAction.releaseLock])) (some (!t))) (!t)
          = learnCriticalSection ++ [LearnAction.releaseLock] := by
        rw [threadProg_setHolder, threadProg_setProg_same]
      have hs2o : threadProg (setHolder (setProg s (!t)
          (learnCriticalSection ++ [LearnAction.releaseLock])) (some (!t))) (!(!t)) = [] := by
        rw [threadProg_setHolder, threadProg_setProg_other, Bool.not_not]
        exact hpt
      have htail := run_section_other_done (!t) learnCriticalSection _ final ts tr
        (by decide) (by decide) hs2h hs2t hs2o hrs hf0 hf1
      rw [htr, htail]
      simp [learnProgram]

/-- A thread inside its critical section with the other thread still at the
start of learn: the section completes first, then the other thread runs
learn, serially. -/
theorem run_section_other_full (t : Bool) (rest : List LearnAction) :
    ∀ (s final : TwoThreads) (sched : List Bool) (trace : List (Bool × LearnAction)),
      LearnAction.acquireLock ∉ rest → LearnAction.releaseLock ∉ rest →
      s.holder = some t →
      threadProg s t = rest ++ [LearnAction.releaseLock] →
      threadProg s (!t) = learnProgram →
      runSched s sched = some (final, trace) →
      threadProg final false = [] → threadProg final true = [] →
      trace = (rest ++ [LearnAction.releaseLock]).map (fun a => (t, a))
        ++ learnProgram.map (fun a => (!t, a)) := by
  induction rest with
  | nil =>
    intro s final sched trace _ _ hh hpt hpo h hf0 hf1
    cases sched with
    | nil =>
      obtain ⟨rfl, rfl⟩ := runSched_nil h
      have hd := threadProg_done hf0 hf1 t
      rw [hpt] at hd
      exact absurd hd (by simp)
    | cons u ts =>
      by_cases hut : u = t
      · subst hut
        simp only [List.nil_append] at hpt
        have hls := lockStep_release hpt hh
        obtain ⟨tr, hrs, htr⟩ := runSched_cons hls h
        have hs2h : (setHolder (setProg s u []) none).holder = none := rfl
        have hs2t : threadProg (setHolder (setProg s u []) none) u = [] := by
          rw [threadProg_setHolder, threadProg_setProg_same]
        have hs2o : threadProg (setHolder (setProg s u []) none) (!u) = learnProgram := by
          rw [threadProg_setHolder, threadProg_setProg_other]
          exact hpo
        have htail := run_other_full u _ final ts tr hs2h hs2t hs2o hrs hf0 hf1
        rw [htr, htail]
        simp
      · have hue := other_thread_of_ne hut
        subst hue
        have hpo2 : threadProg s (!t)
            = LearnAction.acquireLock :: (learnCriticalSection ++ [LearnAction.releaseLock]) :=
          hpo
        have hls := lockStep_acquire_blocked hpo2 (by rw [hh]; simp)
        exact absurd h (runSched_cons_blocked hls)
  | cons a rest2 ih =>
    intro s final sched trace hacq hrel hh hpt hpo h hf0 hf1
    cases sched with
    | nil =>
      obtain ⟨rfl, rfl⟩ := runSched_nil h
      have hd := threadProg_done hf0 hf1 t
      rw [hpt] at hd
      exact absurd hd (by simp)
    | cons u ts =>
      by_cases hut : u = t
      · subst hut
        have ha1 : a ≠ LearnAction.acquireLock := by
          rintro rfl
          exact hacq (List.mem_cons_self _ _)
        have ha2 : a ≠ LearnAction.releaseLock := by
          rintro rfl
          exact hrel (List.mem_cons_self _ _)
        have hpt2 : threadProg s u = a :: (rest2 ++ [LearnAction.releaseLock]) := by
          rw [hpt]
          simp
        have hls := lockStep_body hpt2 ha1 ha2
        obtain ⟨tr, hrs, htr⟩ := runSched_cons hls h
        have htail := ih (setProg s u (rest2 ++ [LearnAction.releaseLock])) final ts tr
          (fun hc => hacq (List.mem_cons_of_mem a hc))
          (fun hc => hrel (List.mem_cons_of_mem a hc))
          (by rw [holder_setProg]; exact hh)
          (threadProg_setProg_same s u _)
          (by rw [threadProg_setProg_other]; exact hpo)
          hrs hf0 hf1
        rw [htr, htail]
        simp
      · have hue := other_thread_of_ne hut
        subst hue
        have hpo2 : threadProg s (!t)
            = LearnAction.acquireLock :: (learnCriticalSection ++ [LearnAction.releaseLock]) :=
          hpo
        have hls := lockStep_acquire_blocked hpo2 (by rw [hh]; simp)
        exact absurd h (runSched_cons_blocked hls)

/-- Every complete two-thread execution of learn under the shared lock is
one of the two serial orders. -/
theorem runSched_serializes (sched : List Bool) (final : TwoThreads)
    (trace : List (Bool × LearnAction))
    (h : runSched ⟨learnProgram, learnProgram, none⟩ sched = some (final, trace))
    (hf0 : final.prog0 = []) (hf1 : final.prog1 = []) :
    trace = learnProgram.map (fun a => (false, a)) ++ learnProgram.map (fun a => (true, a))
    ∨ trace = learnProgram.map (fun a => (true, a)) ++ learnProgram.map (fun a => (false, a)) := by
  have hf0p : threadProg final false = [] := hf0
  have hf1p : threadProg final true = [] := hf1
  cases sched with
  | nil =>
    obtain ⟨rfl, rfl⟩ := runSched_nil h
    exact absurd hf0p (by simp [threadProg, learnProgram])
  | cons u ts =>
    have hpu : threadProg ⟨learnProgram, learnProgram, none⟩ u
        = LearnAction.acquireLock :: (learnCriticalSection ++ [LearnAction.releaseLock]) := by
      cases u <;> rfl
    have hls := lockStep_acquire hpu rfl
    obtain ⟨tr, hrs, htr⟩ := runSched_cons hls h
    have hs2h : (setHolder (setProg ⟨learnProgram, learnProgram, none⟩ u
        (learnCriticalSection ++ [LearnAction.releaseLock])) (some u)).holder = some u := rfl
    have hs2t : threadProg (setHolder (setProg ⟨learnProgram, learnProgram, none⟩ u
        (learnCriticalSection ++ [LearnAction.releaseLock])) (some u)) u
        = learnCriticalSection ++ [LearnAction.releaseLock] := by
      rw [threadProg_setHolder, threadProg_setProg_same]
    have hs2o : threadProg (setHolder (setProg ⟨learnProgram, learnProgram, none⟩ u
        (learnCriticalSection ++ [LearnAction.releaseLock])) (some u)) (!u) = learnProgram := by
      rw [threadProg_setHolder, threadProg_setProg_other]
      cases u <;> rfl
    have htail := run_section_other_full u learnCriticalSection _ final ts tr
      (by decide) (by decide) hs2h hs2t hs2o hrs hf0p hf1p
    rw [htr, htail]
    cases u
    · left
      simp [learnProgram]
    · right
      simp [learnProgram]

/-- C8: (i) a learn call that passes no lock argument uses the single
module-level default lock — the learn call in batch_and_learn passes none, so
every learner thread serializes on that one lock; (ii) within the learn
body the optimizer step strictly precedes the publication of the updated
parameters to the actor model, and both lie inside the critical section;
(iii) under lock semantics every complete interleaving of two learner
threads running learn is one of the two serial orders, so the optimizer
step and the parameter publication of one thread are never interleaved
with any action of the other thread. -/
theorem C8_learn_serialized :
    learnLockUsed batchAndLearnLockArg = LockId.moduleDefault
    ∧ learnProgram
        = LearnAction.acquireLock :: learnCriticalSection ++ [LearnAction.releaseLock]
    ∧ LearnAction.optimizerStep ∈ learnCriticalSection
    ∧ LearnAction.publishParams ∈ learnCriticalSection
    ∧ learnCriticalSection.indexOf LearnAction.optimizerStep
        < learnCriticalSection.indexOf LearnAction.publishParams
    ∧ (∀ (sched : List Bool) (final : TwoThreads) (trace : List (Bool × LearnAction)),
        runSched ⟨learnProgram, learnProgram, none⟩ sched = some (final, trace) →
        final.prog0 = [] → final.prog1 = [] →
        trace = learnProgram.map (fun a => (false, a))
            ++ learnProgram.map (fun a => (true, a))
        ∨ trace = learnProgram.map (fun a => (true, a))
            ++ learnProgram.map (fun a => (false, a))) :=
  ⟨rfl, rfl, by decide, by decide, by decide, runSched_serializes⟩

/-- The schedule that lets thread 0 run all of learn, then thread 1. -/
def learnSerialSched : List Bool :=
  List.replicate learnProgram.length false ++ List.replicate learnProgram.length true

/-- The trace produced by the thread-0-first serial schedule. -/
def learnSerialTrace : List (Bool × LearnAction) :=
  learnProgram.map (fun a => (false, a)) ++ learnProgram.map (fun a => (true, a))

/-- C8 witness: the serialization statement applied to the concrete
thread-0-first schedule, which runs to completion. -/
theorem C8_learn_serialized_witness :
    learnSerialTrace = learnProgram.map (fun a => (false, a))
        ++ learnProgram.map (fun a => (true, a))
    ∨ learnSerialTrace = learnProgram.map (fun a => (true, a))
        ++ learnProgram.map (fun a => (false, a)) :=
  C8_learn_serialized.2.2.2.2.2 learnSerialSched ⟨[], [], none⟩ learnSerialTrace
    (by decide) rfl rfl
